import Mathlib

/-!
Verification of the ranking-jack-poker round engine.

The definitions below are a shallow embedding of the TypeScript sources
(`src/services/pokerLogic.ts` and the application state handlers).  JavaScript
numbers are modelled as exact rationals (`ℚ`); table/seat data as lists.  The
only randomized step of the source, the Fisher-Yates shuffle inside
`drawTables`, is exposed as an explicit `shuffled` parameter so that theorems
can quantify over every permutation the shuffle may produce.  JavaScript's
`Array.prototype.sort` is required by the language standard to be stable, and a
stable sort's output is uniquely determined by the comparator and the input
order; it is therefore modelled by `List.insertionSort`, which is stable.
-/

/-- `src/types.ts`: `Player`. -/
structure Player where
  id : String
  name : String
  isDealer : Bool
deriving DecidableEq

/-- `src/types.ts`: `PlayerSession`.  `rank` is `number | null` in the source,
modelled as `Option ℚ`. -/
structure PlayerSession where
  playerId : String
  buyIns : ℚ
  rebuys : ℚ
  addOns : ℚ
  rank : Option ℚ
deriving DecidableEq

/-- `src/types.ts`: `Table`. -/
structure Table where
  id : ℕ
  players : List String
deriving DecidableEq

/-- `src/types.ts`: `FinancialConfig`. -/
structure FinancialConfig where
  buyInCost : ℚ
  rebuyCost : ℚ
  addOnCost : ℚ
  bbqCost : ℚ
deriving DecidableEq

/-- The `prizes` record of `FinancialResult`. -/
structure Prizes where
  first : ℚ
  second : ℚ
  third : ℚ
deriving DecidableEq

/-- One entry of `FinancialResult.playerBalances`. -/
structure PlayerBalance where
  playerId : String
  totalPaid : ℚ
  prizeReceived : ℚ
  bbqShare : ℚ
  netBalance : ℚ
deriving DecidableEq

/-- `src/types.ts`: `FinancialResult`. -/
structure FinancialResult where
  grossTotal : ℚ
  adminTax : ℚ
  mainEventPot : ℚ
  netPrizePool : ℚ
  prizes : Prizes
  roundingAdjustment : ℚ
  playerBalances : List PlayerBalance
deriving DecidableEq

/-- `pokerLogic.ts` lines 10-14: `calculatePoints`. -/
def calculatePoints (n p : ℚ) : ℚ :=
  if p ≤ 0 then 0 else (n + 1) - p + n / p

/-- JavaScript `Math.round`: round to the nearest integer, ties toward `+∞`. -/
def jsRound (x : ℚ) : ℤ := ⌊x + 1 / 2⌋

/-- `pokerLogic.ts` lines 94-96: the local `smartRound` of `calculateFinancials`,
`Math.round(val / 10) * 10`. -/
def smartRound (val : ℚ) : ℚ := (jsRound (val / 10) : ℚ) * 10

/-- The per-session cost `buyIns*buyInCost + rebuys*rebuyCost + addOns*addOnCost`
accumulated into `grossTotal` (lines 74-78) and recomputed per player as
`totalCost` (lines 121-123). -/
def sessionCost (config : FinancialConfig) (s : PlayerSession) : ℚ :=
  s.buyIns * config.buyInCost + s.rebuys * config.rebuyCost + s.addOns * config.addOnCost

/-- `pokerLogic.ts` lines 68-153: `calculateFinancials`. -/
def calculateFinancials (sessions : List PlayerSession) (config : FinancialConfig) :
    FinancialResult :=
  let grossTotal := (sessions.map (sessionCost config)).sum
  let adminTax := grossTotal * (15 / 100)
  let mainEventPot := grossTotal * (5 / 100)
  let netPrizePool := grossTotal - adminTax - mainEventPot
  let finalPrizes : Prizes :=
    { first := smartRound (netPrizePool * (50 / 100))
      second := smartRound (netPrizePool * (30 / 100))
      third := smartRound (netPrizePool * (20 / 100)) }
  let totalPaidOut := finalPrizes.first + finalPrizes.second + finalPrizes.third
  let roundingAdjustment := netPrizePool - totalPaidOut
  let finalAdminTax := adminTax + roundingAdjustment
  let bbqPerPerson := if 0 < sessions.length then config.bbqCost / sessions.length else 0
  let playerBalances := sessions.map fun s =>
    let totalCost := sessionCost config s
    let prize :=
      if s.rank = some 1 then finalPrizes.first
      else if s.rank = some 2 then finalPrizes.second
      else if s.rank = some 3 then finalPrizes.third
      else 0
    { playerId := s.playerId
      totalPaid := totalCost
      prizeReceived := prize
      bbqShare := bbqPerPerson
      netBalance := prize - totalCost - bbqPerPerson : PlayerBalance }
  { grossTotal := grossTotal
    adminTax := finalAdminTax
    mainEventPot := mainEventPot
    netPrizePool := netPrizePool
    prizes := finalPrizes
    roundingAdjustment := roundingAdjustment
    playerBalances := playerBalances }

/-- C1 -- For every list of player sessions and every cost configuration, the
settlement returned by `calculateFinancials` satisfies
`adminTax + mainEventPot + (prizes.first + prizes.second + prizes.third) = grossTotal`
exactly: the rounding adjustment absorbed into the admin tax makes the
reconciliation identity hold for all inputs. -/
theorem calculateFinancials_settlement_identity
    (sessions : List PlayerSession) (config : FinancialConfig) :
    (calculateFinancials sessions config).adminTax +
      (calculateFinancials sessions config).mainEventPot +
      ((calculateFinancials sessions config).prizes.first +
        (calculateFinancials sessions config).prizes.second +
        (calculateFinancials sessions config).prizes.third) =
      (calculateFinancials sessions config).grossTotal := by
  simp only [calculateFinancials]
  ring

/-- C3 -- `calculatePoints n p` returns `(n + 1) - p + n / p` (real division)
whenever `1 ≤ p`, returns `0` whenever `p ≤ 0`, and in particular
`calculatePoints 25 1 = 50` and `calculatePoints 25 3 = 94/3 = 31.333...`. -/
theorem calculatePoints_formula (n p : ℚ) :
    (1 ≤ p → calculatePoints n p = (n + 1) - p + n / p) ∧
    (p ≤ 0 → calculatePoints n p = 0) ∧
    calculatePoints 25 1 = 50 ∧
    calculatePoints 25 3 = 94 / 3 := by
  refine ⟨fun h1 => ?_, fun h0 => ?_, ?_, ?_⟩
  · rw [calculatePoints, if_neg (by linarith)]
  · rw [calculatePoints, if_pos h0]
  · norm_num [calculatePoints]
  · norm_num [calculatePoints]

/-- Witness for C3 at `n = 25`, `p = 3`. -/
theorem calculatePoints_formula_witness :
    (1 : ℚ) ≤ 3 ∧ calculatePoints 25 3 = (25 + 1) - 3 + 25 / 3 :=
  ⟨by norm_num, (calculatePoints_formula 25 3).1 (by norm_num)⟩

lemma smartRound_eq_mul_ten (x : ℚ) : smartRound x = 10 * (jsRound (x / 10) : ℚ) := by
  rw [smartRound]; ring

lemma smartRound_lower (x : ℚ) : -5 ≤ x - smartRound x := by
  have h := Int.floor_le (x / 10 + 1 / 2)
  rw [smartRound, jsRound]
  linarith

lemma smartRound_upper (x : ℚ) : x - smartRound x < 5 := by
  have h := Int.lt_floor_add_one (x / 10 + 1 / 2)
  rw [smartRound, jsRound]
  linarith

lemma grossTotal_nonneg (sessions : List PlayerSession) (config : FinancialConfig)
    (hb : 0 ≤ config.buyInCost) (hr : 0 ≤ config.rebuyCost) (ha : 0 ≤ config.addOnCost)
    (hs : ∀ s ∈ sessions, 0 ≤ s.buyIns ∧ 0 ≤ s.rebuys ∧ 0 ≤ s.addOns) :
    0 ≤ (sessions.map (sessionCost config)).sum := by
  apply List.sum_nonneg
  intro x hx
  rcases List.mem_map.mp hx with ⟨s, hsmem, rfl⟩
  rcases hs s hsmem with ⟨h1, h2, h3⟩
  have := mul_nonneg h1 hb
  have := mul_nonneg h2 hr
  have := mul_nonneg h3 ha
  rw [sessionCost]
  linarith

/-- C2 -- With non-negative unit costs (and data-model-conforming sessions,
whose counts are non-negative), each of the three prizes returned by
`calculateFinancials` is a multiple of 10 currency units obtained by rounding
the raw prize share (50%/30%/20% of the net prize pool) to the nearest multiple
of 10 with halves rounded away from zero: each prize `P` with raw share `R`
satisfies `-5 ≤ R - P < 5` (so `P` is the nearest multiple of 10, a raw value
exactly halfway rounding upward), the raw shares are non-negative (so rounding
halves upward coincides with rounding halves away from zero), and in
particular `smartRound 125 = 130`. -/
theorem calculateFinancials_prizes_multiples_of_ten
    (sessions : List PlayerSession) (config : FinancialConfig)
    (hb : 0 ≤ config.buyInCost) (hr : 0 ≤ config.rebuyCost) (ha : 0 ≤ config.addOnCost)
    (hs : ∀ s ∈ sessions, 0 ≤ s.buyIns ∧ 0 ≤ s.rebuys ∧ 0 ≤ s.addOns) :
    0 ≤ (calculateFinancials sessions config).netPrizePool ∧
    (∃ k : ℤ, (calculateFinancials sessions config).prizes.first = 10 * k) ∧
    (∃ k : ℤ, (calculateFinancials sessions config).prizes.second = 10 * k) ∧
    (∃ k : ℤ, (calculateFinancials sessions config).prizes.third = 10 * k) ∧
    (-5 ≤ (calculateFinancials sessions config).netPrizePool * (50 / 100) -
        (calculateFinancials sessions config).prizes.first ∧
      (calculateFinancials sessions config).netPrizePool * (50 / 100) -
        (calculateFinancials sessions config).prizes.first < 5) ∧
    (-5 ≤ (calculateFinancials sessions config).netPrizePool * (30 / 100) -
        (calculateFinancials sessions config).prizes.second ∧
      (calculateFinancials sessions config).netPrizePool * (30 / 100) -
        (calculateFinancials sessions config).prizes.second < 5) ∧
    (-5 ≤ (calculateFinancials sessions config).netPrizePool * (20 / 100) -
        (calculateFinancials sessions config).prizes.third ∧
      (calculateFinancials sessions config).netPrizePool * (20 / 100) -
        (calculateFinancials sessions config).prizes.third < 5) ∧
    smartRound 125 = 130 := by
  have hg := grossTotal_nonneg sessions config hb hr ha hs
  simp only [calculateFinancials]
  refine ⟨by linarith, ⟨jsRound _, smartRound_eq_mul_ten _⟩,
    ⟨jsRound _, smartRound_eq_mul_ten _⟩, ⟨jsRound _, smartRound_eq_mul_ten _⟩,
    ⟨smartRound_lower _, smartRound_upper _⟩, ⟨smartRound_lower _, smartRound_upper _⟩,
    ⟨smartRound_lower _, smartRound_upper _⟩, ?_⟩
  norm_num [smartRound, jsRound]

/-- The end-to-end fixture of the spec: four players, costs 50/50/50/40. -/
def fixtureSessions : List PlayerSession :=
  [⟨"a", 1, 0, 0, some 1⟩, ⟨"b", 1, 0, 0, some 2⟩,
   ⟨"c", 1, 0, 0, some 3⟩, ⟨"d", 1, 0, 0, none⟩]

def fixtureConfig : FinancialConfig := ⟨50, 50, 50, 40⟩

/-- Witness for C2 at the four-player fixture. -/
theorem calculateFinancials_prizes_multiples_of_ten_witness :
    ((0 : ℚ) ≤ fixtureConfig.buyInCost ∧ (0 : ℚ) ≤ fixtureConfig.rebuyCost ∧
      (0 : ℚ) ≤ fixtureConfig.addOnCost ∧
      (∀ s ∈ fixtureSessions, 0 ≤ s.buyIns ∧ 0 ≤ s.rebuys ∧ 0 ≤ s.addOns)) ∧
    (0 ≤ (calculateFinancials fixtureSessions fixtureConfig).netPrizePool ∧
    (∃ k : ℤ, (calculateFinancials fixtureSessions fixtureConfig).prizes.first = 10 * k) ∧
    (∃ k : ℤ, (calculateFinancials fixtureSessions fixtureConfig).prizes.second = 10 * k) ∧
    (∃ k : ℤ, (calculateFinancials fixtureSessions fixtureConfig).prizes.third = 10 * k) ∧
    (-5 ≤ (calculateFinancials fixtureSessions fixtureConfig).netPrizePool * (50 / 100) -
        (calculateFinancials fixtureSessions fixtureConfig).prizes.first ∧
      (calculateFinancials fixtureSessions fixtureConfig).netPrizePool * (50 / 100) -
        (calculateFinancials fixtureSessions fixtureConfig).prizes.first < 5) ∧
    (-5 ≤ (calculateFinancials fixtureSessions fixtureConfig).netPrizePool * (30 / 100) -
        (calculateFinancials fixtureSessions fixtureConfig).prizes.second ∧
      (calculateFinancials fixtureSessions fixtureConfig).netPrizePool * (30 / 100) -
        (calculateFinancials fixtureSessions fixtureConfig).prizes.second < 5) ∧
    (-5 ≤ (calculateFinancials fixtureSessions fixtureConfig).netPrizePool * (20 / 100) -
        (calculateFinancials fixtureSessions fixtureConfig).prizes.third ∧
      (calculateFinancials fixtureSessions fixtureConfig).netPrizePool * (20 / 100) -
        (calculateFinancials fixtureSessions fixtureConfig).prizes.third < 5) ∧
    smartRound 125 = 130) :=
  ⟨⟨by norm_num [fixtureConfig], by norm_num [fixtureConfig], by norm_num [fixtureConfig],
      by decide⟩,
    calculateFinancials_prizes_multiples_of_ten fixtureSessions fixtureConfig
      (by norm_num [fixtureConfig]) (by norm_num [fixtureConfig])
      (by norm_num [fixtureConfig]) (by decide)⟩

/-- The field names of `PlayerSession` (`keyof PlayerSession` in the source). -/
inductive SessionField where
  | playerId
  | buyIns
  | rebuys
  | addOns
  | rank
deriving DecidableEq

/-- App lines 135-152: `updateSession`.  The dynamic `typeof val === 'number'`
check succeeds for the three count fields always and for `rank` exactly when it
is non-null; `playerId` is a string, so that branch returns the session
unchanged. -/
def updateSession (ss : List PlayerSession) (pid : String) (field : SessionField)
    (delta : ℚ) : List PlayerSession :=
  ss.map fun s =>
    if s.playerId ≠ pid then s
    else
      match field with
      | .buyIns => { s with buyIns := max 0 (s.buyIns + delta) }
      | .rebuys => { s with rebuys := max 0 (s.rebuys + delta) }
      | .addOns => { s with addOns := max 0 (min 1 (s.addOns + delta)) }
      | .rank =>
          match s.rank with
          | none => s
          | some r => { s with rank := some (max 0 (r + delta)) }
      | .playerId => s

/-- App lines 186-192: `setRank`. -/
def setRank (ss : List PlayerSession) (pid : String) (rank : ℚ) : List PlayerSession :=
  ss.map fun s =>
    if s.playerId = pid then { s with rank := some rank }
    else if s.rank = some rank then { s with rank := none }
    else s

/-- App lines 172-174: the list of non-null ranks of the current sessions. -/
def assignedRanks (ss : List PlayerSession) : List ℚ :=
  ss.filterMap (fun s => s.rank)

lemma map_eq_self_of_eq {α : Type} (l : List α) (f : α → α) (h : ∀ a ∈ l, f a = a) :
    l.map f = l := by
  induction l with
  | nil => rfl
  | cons a l ih =>
    rw [List.map_cons, h a (by simp), ih fun a ha => h a (by simp [ha])]

/-- C10 -- For every session list, playerId, field in `{rebuys, addOns}` and
delta, `updateSession` changes at most the named field of the sessions
belonging to `playerId` (clamping `addOns` to `[0,1]` and `rebuys` to `≥ 0`);
every session with a different `playerId`, and every other field (`buyIns`,
`rank`, `playerId`) of a targeted session, is unchanged.  Stated as a
position-by-position relation between input and output. -/
theorem updateSession_frame (ss : List PlayerSession) (pid : String)
    (field : SessionField) (delta : ℚ)
    (hf : field = SessionField.rebuys ∨ field = SessionField.addOns) :
    List.Forall₂ (fun s s' =>
      s'.playerId = s.playerId ∧ s'.buyIns = s.buyIns ∧ s'.rank = s.rank ∧
      (s.playerId ≠ pid → s' = s) ∧
      (s.playerId = pid → field = SessionField.rebuys →
        s'.addOns = s.addOns ∧ s'.rebuys = max 0 (s.rebuys + delta) ∧ 0 ≤ s'.rebuys) ∧
      (s.playerId = pid → field = SessionField.addOns →
        s'.rebuys = s.rebuys ∧ s'.addOns = max 0 (min 1 (s.addOns + delta)) ∧
          0 ≤ s'.addOns ∧ s'.addOns ≤ 1))
      ss (updateSession ss pid field delta) := by
  rw [updateSession, List.forall₂_map_right_iff]
  rw [List.forall₂_same]
  intro s _
  by_cases hp : s.playerId = pid
  · rcases hf with rfl | rfl <;>
      simp [hp, le_max_left, le_max_right, max_le_iff, min_le_iff]
  · simp [hp]

/-- Witness for C10: one session, `field = rebuys`, `delta = 5`. -/
theorem updateSession_frame_witness :
    List.Forall₂ (fun s s' =>
      s'.playerId = s.playerId ∧ s'.buyIns = s.buyIns ∧ s'.rank = s.rank ∧
      (s.playerId ≠ "a" → s' = s) ∧
      (s.playerId = "a" → SessionField.rebuys = SessionField.rebuys →
        s'.addOns = s.addOns ∧ s'.rebuys = max 0 (s.rebuys + 5) ∧ 0 ≤ s'.rebuys) ∧
      (s.playerId = "a" → SessionField.rebuys = SessionField.addOns →
        s'.rebuys = s.rebuys ∧ s'.addOns = max 0 (min 1 (s.addOns + 5)) ∧
          0 ≤ s'.addOns ∧ s'.addOns ≤ 1))
      [(⟨"a", 1, 0, 0, none⟩ : PlayerSession)]
      (updateSession [⟨"a", 1, 0, 0, none⟩] "a" SessionField.rebuys 5) :=
  updateSession_frame [⟨"a", 1, 0, 0, none⟩] "a" SessionField.rebuys 5 (Or.inl rfl)

/-- C8 counterexample -- with an unknown `playerId`, `setRank` is NOT a no-op:
it still clears the rank of a session that already holds the given rank.  Here
`"zzz"` matches no session, yet `setRank` erases player `"a"`'s rank 1. -/
theorem unknownPlayer_setRank_counterexample :
    "zzz" ∉ ([(⟨"a", 1, 0, 0, some 1⟩ : PlayerSession)].map (fun s => s.playerId)) ∧
    setRank [(⟨"a", 1, 0, 0, some 1⟩ : PlayerSession)] "zzz" 1 ≠
      [(⟨"a", 1, 0, 0, some 1⟩ : PlayerSession)] := by
  exact ⟨by decide, by decide⟩

/-- C8 (amended) -- for an unknown `playerId`: `updateSession` is a no-op
returning the session list unchanged; `setRank` leaves every session unchanged
except that a session already holding the given rank has its rank cleared to
null, so it is a no-op exactly when no session holds that rank.  Neither
operation raises an error (both are total functions). -/
theorem unknownPlayer_ledger_ops (ss : List PlayerSession) (pid : String)
    (field : SessionField) (delta v : ℚ)
    (hpid : pid ∉ ss.map (fun s => s.playerId)) :
    updateSession ss pid field delta = ss ∧
    ((∀ s ∈ ss, s.rank ≠ some v) → setRank ss pid v = ss) ∧
    setRank ss pid v =
      ss.map (fun s => if s.rank = some v then { s with rank := none } else s) := by
  have hne : ∀ s ∈ ss, s.playerId ≠ pid := by
    intro s hs h
    exact hpid (List.mem_map.mpr ⟨s, hs, h⟩)
  refine ⟨?_, fun hv => ?_, ?_⟩
  · rw [updateSession]
    apply map_eq_self_of_eq
    intro s hs
    simp [hne s hs]
  · rw [setRank]
    apply map_eq_self_of_eq
    intro s hs
    simp [hne s hs, hv s hs]
  · rw [setRank]
    apply List.map_congr_left
    intro s hs
    simp [hne s hs]

/-- Witness for C8 (amended) at a two-session list and unknown id `"zzz"`. -/
theorem unknownPlayer_ledger_ops_witness :
    ("zzz" ∉ ([(⟨"a", 1, 0, 0, none⟩ : PlayerSession), ⟨"b", 2, 1, 0, none⟩].map
        (fun s => s.playerId)) ∧
      (∀ s ∈ [(⟨"a", 1, 0, 0, none⟩ : PlayerSession), ⟨"b", 2, 1, 0, none⟩],
        s.rank ≠ some 7)) ∧
    updateSession [(⟨"a", 1, 0, 0, none⟩ : PlayerSession), ⟨"b", 2, 1, 0, none⟩]
        "zzz" SessionField.rebuys 3 =
      [(⟨"a", 1, 0, 0, none⟩ : PlayerSession), ⟨"b", 2, 1, 0, none⟩] ∧
    setRank [(⟨"a", 1, 0, 0, none⟩ : PlayerSession), ⟨"b", 2, 1, 0, none⟩] "zzz" 7 =
      [(⟨"a", 1, 0, 0, none⟩ : PlayerSession), ⟨"b", 2, 1, 0, none⟩] := by
  have h := unknownPlayer_ledger_ops
    [(⟨"a", 1, 0, 0, none⟩ : PlayerSession), ⟨"b", 2, 1, 0, none⟩]
    "zzz" SessionField.rebuys 3 7 (by decide)
  exact ⟨⟨by decide, by decide⟩, h.1, h.2.1 (by decide)⟩

lemma count_assignedRanks (ss : List PlayerSession) (x : ℚ) :
    (assignedRanks ss).count x = ss.countP (fun s => decide (s.rank = some x)) := by
  induction ss with
  | nil => rfl
  | cons s ss ih =>
    rw [assignedRanks] at ih ⊢
    rw [List.filterMap_cons, List.countP_cons]
    cases h : s.rank with
    | none => simp [h, ih]
    | some r =>
      rw [List.count_cons, ih]
      by_cases hrx : r = x <;> simp [hrx, h]

lemma countP_fiber_le_one {α β : Type} [DecidableEq β] (l : List α) (f : α → β)
    (hn : (l.map f).Nodup) (q : β) :
    l.countP (fun s => decide (f s = q)) ≤ 1 := by
  induction l with
  | nil => simp
  | cons a l ih =>
    rw [List.map_cons, List.nodup_cons] at hn
    rw [List.countP_cons]
    by_cases haq : f a = q
    · have h0 : l.countP (fun s => decide (f s = q)) = 0 := by
        rw [List.countP_eq_zero]
        intro s hs
        simp only [decide_eq_true_eq]
        intro hfs
        exact hn.1 (List.mem_map.mpr ⟨s, hs, by rw [hfs, haq]⟩)
      simp [haq, h0]
    · simpa [haq] using ih hn.2

/-- C5 counterexample -- the claim quantifies over every session list, but a
list with a duplicated `playerId` satisfies the uniqueness precondition (no
ranks assigned at all) while `setRank` assigns the same rank to both matching
sessions, breaking uniqueness. -/
theorem setRank_uniqueness_counterexample :
    (assignedRanks [(⟨"a", 1, 0, 0, none⟩ : PlayerSession),
        ⟨"a", 1, 0, 0, none⟩]).Nodup ∧
    ¬ (assignedRanks (setRank [(⟨"a", 1, 0, 0, none⟩ : PlayerSession),
        ⟨"a", 1, 0, 0, none⟩] "a" 1)).Nodup := by
  exact ⟨by decide, by decide⟩

/-- C5 (amended) -- for every session list with pairwise-distinct `playerId`s
in which each non-null rank is held by at most one session (i.e. the list of
assigned ranks has no duplicates), after `setRank` at most one session holds
any given non-null rank: a session previously holding the assigned rank is
cleared to null (eviction) rather than the call being rejected. -/
theorem setRank_preserves_rank_uniqueness (ss : List PlayerSession) (pid : String)
    (v : ℚ) (hids : (ss.map (fun s => s.playerId)).Nodup)
    (hu : (assignedRanks ss).Nodup) :
    (assignedRanks (setRank ss pid v)).Nodup := by
  rw [List.nodup_iff_count_le_one]
  intro x
  rw [count_assignedRanks, setRank, List.countP_map]
  by_cases hxv : x = v
  · subst hxv
    calc ss.countP _ ≤ ss.countP (fun s => decide (s.playerId = pid)) := by
          apply List.countP_mono_left
          intro s _ h
          simp only [Function.comp_apply, decide_eq_true_eq] at h ⊢
          by_contra hp
          rw [if_neg hp] at h
          by_cases hr : s.rank = some x
          · rw [if_pos hr] at h
            simp at h
          · rw [if_neg hr] at h
            exact hr h
      _ ≤ 1 := countP_fiber_le_one ss (fun s => s.playerId) hids pid
  · calc ss.countP _ ≤ ss.countP (fun s => decide (s.rank = some x)) := by
          apply List.countP_mono_left
          intro s _ h
          simp only [Function.comp_apply, decide_eq_true_eq] at h ⊢
          by_cases hp : s.playerId = pid
          · rw [if_pos hp] at h
            simp only [Option.some.injEq] at h
            exact absurd h.symm hxv
          · rw [if_neg hp] at h
            by_cases hr : s.rank = some v
            · rw [if_pos hr] at h
              simp at h
            · rwa [if_neg hr] at h
      _ = (assignedRanks ss).count x := (count_assignedRanks ss x).symm
      _ ≤ 1 := List.nodup_iff_count_le_one.mp hu x

/-- Witness for C5 (amended): `"b"` takes rank 1, evicting `"a"`. -/
theorem setRank_preserves_rank_uniqueness_witness :
    ((([(⟨"a", 1, 0, 0, some 1⟩ : PlayerSession), ⟨"b", 1, 0, 0, none⟩].map
        (fun s => s.playerId)).Nodup ∧
      (assignedRanks [(⟨"a", 1, 0, 0, some 1⟩ : PlayerSession),
        ⟨"b", 1, 0, 0, none⟩]).Nodup) ∧
    (assignedRanks (setRank [(⟨"a", 1, 0, 0, some 1⟩ : PlayerSession),
        ⟨"b", 1, 0, 0, none⟩] "b" 1)).Nodup) :=
  ⟨⟨by decide, by decide⟩,
    setRank_preserves_rank_uniqueness
      [(⟨"a", 1, 0, 0, some 1⟩ : PlayerSession), ⟨"b", 1, 0, 0, none⟩]
      "b" 1 (by decide) (by decide)⟩

/-- App lines 176-179: the while loop of `handleElimination`: starting from
`activeCount`, decrement as long as the candidate rank is already assigned and
still positive; the loop stops at 0 without testing membership of 0. -/
def nextFreeRank (assigned : List ℚ) : ℕ → ℕ
  | 0 => 0
  | r + 1 => if (((r + 1 : ℕ) : ℚ)) ∈ assigned then nextFreeRank assigned r else r + 1

/-- App lines 170-184: `handleElimination`.  `activeCount` is
`checkedInIds.size` in the source. -/
def handleElimination (activeCount : ℕ) (ss : List PlayerSession) (pid : String) :
    List PlayerSession :=
  let nextRank := nextFreeRank (assignedRanks ss) activeCount
  if 0 < nextRank then setRank ss pid (nextRank : ℚ) else ss

/-- Index of the first occurrence of `pid`, specification-side helper. -/
def idxOf (pid : String) : List String → Option ℕ
  | [] => none
  | q :: qs => if q = pid then some 0 else (idxOf pid qs).map (· + 1)

/-- The rank a player should hold after the players of `qs` have been
eliminated in order, in a round of `N` players: the `i`-th eliminated player
(0-based) holds rank `N - i`. -/
def expectedRank (qs : List String) (N : ℕ) (pid : String) : Option ℚ :=
  (idxOf pid qs).map (fun i => ((N - i : ℕ) : ℚ))

/-- The session list obtained from `ss₀` by giving each player the rank
`expectedRank qs N` prescribes (and `none` to everyone else). -/
def stateAfter (ss₀ : List PlayerSession) (qs : List String) (N : ℕ) :
    List PlayerSession :=
  ss₀.map (fun s => { s with rank := expectedRank qs N s.playerId })

lemma idxOf_eq_none (pid : String) (qs : List String) (h : pid ∉ qs) :
    idxOf pid qs = none := by
  induction qs with
  | nil => rfl
  | cons q qs ih =>
    rw [List.mem_cons] at h
    push_neg at h
    rw [idxOf, if_neg (fun hq => h.1 hq.symm), ih h.2, Option.map_none']

lemma idxOf_some (pid : String) (qs : List String) (i : ℕ)
    (h : idxOf pid qs = some i) : ∃ hi : i < qs.length, qs.get ⟨i, hi⟩ = pid := by
  induction qs generalizing i with
  | nil => simp [idxOf] at h
  | cons q qs ih =>
    rw [idxOf] at h
    by_cases hq : q = pid
    · rw [if_pos hq] at h
      obtain rfl : 0 = i := Option.some.injEq _ _ ▸ h
      exact ⟨by simp, hq⟩
    · rw [if_neg hq] at h
      obtain ⟨j, hj, rfl⟩ := Option.map_eq_some'.mp h
      obtain ⟨hji, hget⟩ := ih j hj
      exact ⟨by simpa using hji, hget⟩

lemma idxOf_append_self (pid : String) (qs : List String) (h : pid ∉ qs) :
    idxOf pid (qs ++ [pid]) = some qs.length := by
  induction qs with
  | nil => simp [idxOf]
  | cons q qs ih =>
    rw [List.mem_cons] at h
    push_neg at h
    rw [List.cons_append, idxOf, if_neg (fun hq => h.1 hq.symm), ih h.2]
    rfl

lemma idxOf_append_ne (pid p : String) (qs : List String) (h : pid ∉ qs)
    (hp : p ≠ pid) : idxOf pid (qs ++ [p]) = none := by
  induction qs with
  | nil => simp [idxOf, hp]
  | cons q qs ih =>
    rw [List.mem_cons] at h
    push_neg at h
    rw [List.cons_append, idxOf, if_neg (fun hq => h.1 hq.symm), ih h.2,
      Option.map_none']

lemma idxOf_append_of_some (pid : String) (qs l : List String) (i : ℕ)
    (h : idxOf pid qs = some i) : idxOf pid (qs ++ l) = some i := by
  induction qs generalizing i with
  | nil => simp [idxOf] at h
  | cons q qs ih =>
    rw [idxOf] at h
    rw [List.cons_append, idxOf]
    by_cases hq : q = pid
    · rwa [if_pos hq] at h ⊢
    · rw [if_neg hq] at h ⊢
      obtain ⟨j, hj, rfl⟩ := Option.map_eq_some'.mp h
      rw [ih j hj]
      rfl

lemma idxOf_get_of_nodup (qs : List String) (hn : qs.Nodup) (i : ℕ)
    (hi : i < qs.length) : idxOf (qs.get ⟨i, hi⟩) qs = some i := by
  induction qs generalizing i with
  | nil => simp at hi
  | cons q qs ih =>
    rw [List.nodup_cons] at hn
    cases i with
    | zero => simp [idxOf]
    | succ j =>
      have hj : j < qs.length := by simpa using hi
      have hmem : qs.get ⟨j, hj⟩ ∈ qs := qs.get_mem j hj
      rw [show (q :: qs).get ⟨j + 1, hi⟩ = qs.get ⟨j, hj⟩ from rfl, idxOf,
        if_neg (fun hq : q = qs.get ⟨j, hj⟩ => hn.1 (hq ▸ hmem)), ih hn.2 j hj]
      rfl

lemma nextFreeRank_eq (assigned : List ℚ) (k : ℕ)
    (hnot : k ≠ 0 → ((k : ℕ) : ℚ) ∉ assigned) :
    ∀ n, k ≤ n → (∀ r : ℕ, k < r → r ≤ n → ((r : ℕ) : ℚ) ∈ assigned) →
      nextFreeRank assigned n = k := by
  intro n
  induction n with
  | zero =>
    intro hk _
    have hk0 : k = 0 := by omega
    simp [nextFreeRank, hk0]
  | succ m ih =>
    intro hk hmem
    by_cases hkm : k = m + 1
    · subst hkm
      rw [nextFreeRank, if_neg (hnot (by omega))]
    · have hmm : ((((m + 1 : ℕ)) : ℚ)) ∈ assigned := hmem (m + 1) (by omega) (by omega)
      rw [nextFreeRank, if_pos hmm]
      exact ih (by omega) (fun r h1 h2 => hmem r h1 (by omega))

lemma mem_assignedRanks_stateAfter (ss₀ : List PlayerSession) (qs : List String)
    (N : ℕ) (x : ℚ) :
    x ∈ assignedRanks (stateAfter ss₀ qs N) ↔
      ∃ s ∈ ss₀, expectedRank qs N s.playerId = some x := by
  rw [assignedRanks, stateAfter, List.filterMap_map]
  simp [List.mem_filterMap, Function.comp]

lemma idxOf_is_some_of_mem (pid : String) (qs : List String) (h : pid ∈ qs) :
    ∃ i, idxOf pid qs = some i := by
  induction qs with
  | nil => simp at h
  | cons q qs ih =>
    by_cases hq : q = pid
    · exact ⟨0, by rw [idxOf, if_pos hq]⟩
    · have hm : pid ∈ qs := by
        rcases List.mem_cons.mp h with h1 | h2
        · exact absurd h1.symm hq
        · exact h2
      obtain ⟨i, hi⟩ := ih hm
      exact ⟨i + 1, by rw [idxOf, if_neg hq, hi]; rfl⟩

lemma setRank_stateAfter (ss₀ : List PlayerSession) (qs : List String) (p : String)
    (N : ℕ) (hp : p ∉ qs) (hlen : qs.length < N) :
    setRank (stateAfter ss₀ qs N) p ((N - qs.length : ℕ) : ℚ) =
      stateAfter ss₀ (qs ++ [p]) N := by
  rw [setRank, stateAfter, stateAfter, List.map_map]
  apply List.map_congr_left
  intro s _
  simp only [Function.comp_apply]
  by_cases hsp : s.playerId = p
  · simp [expectedRank, hsp, idxOf_append_self p qs hp]
  · by_cases hmem : s.playerId ∈ qs
    · obtain ⟨i, hidx⟩ := idxOf_is_some_of_mem s.playerId qs hmem
      obtain ⟨hi, -⟩ := idxOf_some s.playerId qs i hidx
      have hne : ((N - i : ℕ) : ℚ) ≠ ((N - qs.length : ℕ) : ℚ) := by
        rw [Ne, Nat.cast_inj]
        omega
      rw [expectedRank, expectedRank, hidx, idxOf_append_of_some s.playerId qs [p] i hidx]
      simp [hsp, hne]
    · rw [expectedRank, expectedRank, idxOf_eq_none s.playerId qs hmem,
        idxOf_append_ne s.playerId p qs hmem (fun h => hsp h.symm)]
      simp [hsp]

lemma nextFreeRank_stateAfter (ss₀ : List PlayerSession) (qs : List String) (N : ℕ)
    (hnd : qs.Nodup) (hsub : ∀ q ∈ qs, q ∈ ss₀.map (fun s => s.playerId))
    (hlen : qs.length ≤ N) :
    nextFreeRank (assignedRanks (stateAfter ss₀ qs N)) N = N - qs.length := by
  apply nextFreeRank_eq
  · intro hne hmem
    rw [mem_assignedRanks_stateAfter] at hmem
    obtain ⟨s, -, hex⟩ := hmem
    rw [expectedRank] at hex
    obtain ⟨i, hidx, hval⟩ := Option.map_eq_some'.mp hex
    obtain ⟨hi, -⟩ := idxOf_some s.playerId qs i hidx
    rw [Nat.cast_inj] at hval
    omega
  · omega
  · intro r hr1 hr2
    rw [mem_assignedRanks_stateAfter]
    have hi : N - r < qs.length := by omega
    have hq : qs.get ⟨N - r, hi⟩ ∈ qs := qs.get_mem (N - r) hi
    obtain ⟨s, hs, hsq⟩ := List.mem_map.mp (hsub _ hq)
    refine ⟨s, hs, ?_⟩
    rw [expectedRank, hsq, idxOf_get_of_nodup qs hnd (N - r) hi]
    rw [Option.map_some']
    congr 1
    rw [Nat.cast_inj]
    omega

lemma stateAfter_nil (ss₀ : List PlayerSession) (N : ℕ)
    (h : ∀ s ∈ ss₀, s.rank = none) : stateAfter ss₀ [] N = ss₀ := by
  rw [stateAfter]
  apply map_eq_self_of_eq
  intro s hs
  have hr := h s hs
  cases s
  simp only [expectedRank, idxOf, Option.map_none']
  simp only at hr
  rw [hr]

lemma elim_foldl (ss₀ : List PlayerSession) :
    ∀ (ps qs : List String), (qs ++ ps).Nodup →
      (∀ q ∈ qs ++ ps, q ∈ ss₀.map (fun s => s.playerId)) →
      qs.length + ps.length ≤ ss₀.length →
      ps.foldl (handleElimination ss₀.length) (stateAfter ss₀ qs ss₀.length) =
        stateAfter ss₀ (qs ++ ps) ss₀.length := by
  intro ps
  induction ps with
  | nil =>
    intro qs _ _ _
    simp
  | cons p ps ih =>
    intro qs hnd hsub hlen
    have hqnd : qs.Nodup := hnd.of_append_left
    have hpq : p ∉ qs := by
      intro hin
      have hdisj := (List.nodup_append.mp hnd).2.2
      exact hdisj hin (List.mem_cons_self p ps)
    have hqlt : qs.length < ss₀.length := by
      simp only [List.length_cons] at hlen
      omega
    have hstep : handleElimination ss₀.length (stateAfter ss₀ qs ss₀.length) p =
        stateAfter ss₀ (qs ++ [p]) ss₀.length := by
      have hB := nextFreeRank_stateAfter ss₀ qs ss₀.length hqnd
        (fun q hq => hsub q (List.mem_append_left (p :: ps) hq)) (by omega)
      rw [handleElimination]
      simp only [hB]
      rw [if_pos (by omega)]
      exact setRank_stateAfter ss₀ qs p ss₀.length hpq hqlt
    rw [List.foldl_cons, hstep]
    have hres := ih (qs ++ [p])
      (by rwa [List.append_assoc, List.singleton_append])
      (by
        intro q hq
        apply hsub q
        rwa [List.append_assoc, List.singleton_append] at hq)
      (by simp only [List.length_append, List.length_cons,
            List.length_nil] at hlen ⊢; omega)
    rw [hres, List.append_assoc, List.singleton_append]

lemma filterMap_eq_map_of_forall {α β : Type} (l : List α) (f : α → Option β)
    (g : α → β) (h : ∀ a ∈ l, f a = some (g a)) : l.filterMap f = l.map g := by
  induction l with
  | nil => rfl
  | cons a l ih =>
    rw [List.filterMap_cons, h a (List.mem_cons_self a l), List.map_cons,
      ih (fun b hb => h b (List.mem_cons_of_mem a hb))]

/-- C4 -- In a round with `N` checked-in players (all with distinct ids and no
ranks assigned yet), eliminating the players one at a time in any order `ps`
via `handleElimination` assigns ranks `N, N-1, ..., 1` in that order: after any
prefix of `k` eliminations the state is exactly `stateAfter` that prefix, the
`i`-th eliminated player holds rank `N - i` (0-based), each rank value in
`1..N` is used exactly once (the list of assigned ranks has no duplicates and
contains every value `1..N`), and an `(N+1)`-th elimination of any player `q`
is a no-op leaving every session unchanged. -/
theorem handleElimination_descending_ranks
    (ss₀ : List PlayerSession) (ps : List String) (q : String)
    (hrank : ∀ s ∈ ss₀, s.rank = none)
    (hids : (ss₀.map (fun s => s.playerId)).Nodup)
    (hnd : ps.Nodup)
    (hsub : ∀ p ∈ ps, p ∈ ss₀.map (fun s => s.playerId))
    (hlen : ps.length = ss₀.length) :
    (∀ k, k ≤ ps.length →
      (ps.take k).foldl (handleElimination ss₀.length) ss₀ =
        stateAfter ss₀ (ps.take k) ss₀.length) ∧
    (∀ i, ∀ hi : i < ps.length, ∀ s ∈ ps.foldl (handleElimination ss₀.length) ss₀,
      s.playerId = ps.get ⟨i, hi⟩ → s.rank = some ((ss₀.length - i : ℕ) : ℚ)) ∧
    (assignedRanks (ps.foldl (handleElimination ss₀.length) ss₀)).Nodup ∧
    (∀ r : ℕ, 1 ≤ r → r ≤ ss₀.length →
      ((r : ℕ) : ℚ) ∈ assignedRanks (ps.foldl (handleElimination ss₀.length) ss₀)) ∧
    handleElimination ss₀.length (ps.foldl (handleElimination ss₀.length) ss₀) q =
      ps.foldl (handleElimination ss₀.length) ss₀ := by
  have htake : ∀ k, k ≤ ps.length →
      (ps.take k).foldl (handleElimination ss₀.length) ss₀ =
        stateAfter ss₀ (ps.take k) ss₀.length := by
    intro k hk
    have h0 : (ps.take k).foldl (handleElimination ss₀.length) ss₀ =
        (ps.take k).foldl (handleElimination ss₀.length)
          (stateAfter ss₀ [] ss₀.length) := by
      rw [stateAfter_nil ss₀ ss₀.length hrank]
    rw [h0]
    have h := elim_foldl ss₀ (ps.take k) []
      (by simpa using (List.take_sublist k ps).nodup hnd)
      (by
        intro a ha
        rw [List.nil_append] at ha
        exact hsub a ((List.take_sublist k ps).subset ha))
      (by
        rw [List.length_nil, List.length_take]
        omega)
    simpa using h
  have hF : ps.foldl (handleElimination ss₀.length) ss₀ =
      stateAfter ss₀ ps ss₀.length := by
    have h := htake ps.length le_rfl
    simpa [List.take_length] using h
  have hcover : ∀ pid ∈ ss₀.map (fun s => s.playerId), pid ∈ ps := by
    have hperm : ps.Perm (ss₀.map fun s => s.playerId) := by
      apply (hnd.subperm ?_).perm_of_length_le
      · rw [List.length_map]
        omega
      · intro a ha
        exact hsub a ha
    intro pid hpid
    exact hperm.symm.subset hpid
  refine ⟨htake, ?_, ?_, ?_, ?_⟩
  · intro i hi s hsF hspid
    rw [hF, stateAfter] at hsF
    obtain ⟨s₀, hs₀, rfl⟩ := List.mem_map.mp hsF
    simp only at hspid ⊢
    rw [show s₀.playerId = ps.get ⟨i, hi⟩ from hspid, expectedRank,
      idxOf_get_of_nodup ps hnd i hi, Option.map_some']
  · rw [hF]
    have hmapeq : assignedRanks (stateAfter ss₀ ps ss₀.length) =
        ss₀.map (fun s =>
          ((ss₀.length - ((idxOf s.playerId ps).getD 0) : ℕ) : ℚ)) := by
      rw [assignedRanks, stateAfter, List.filterMap_map]
      apply filterMap_eq_map_of_forall
      intro s hs
      obtain ⟨i, hi⟩ :=
        idxOf_is_some_of_mem s.playerId ps (hcover _ (List.mem_map_of_mem _ hs))
      simp [Function.comp, expectedRank, hi]
    rw [hmapeq]
    apply List.Nodup.map_on ?_ (List.Nodup.of_map _ hids)
    intro s hs t ht hgeq
    obtain ⟨i, hi⟩ :=
      idxOf_is_some_of_mem s.playerId ps (hcover _ (List.mem_map_of_mem _ hs))
    obtain ⟨j, hj⟩ :=
      idxOf_is_some_of_mem t.playerId ps (hcover _ (List.mem_map_of_mem _ ht))
    obtain ⟨hilt, hgets⟩ := idxOf_some _ _ _ hi
    obtain ⟨hjlt, hgett⟩ := idxOf_some _ _ _ hj
    rw [hi, hj] at hgeq
    simp only [Option.getD_some, Nat.cast_inj] at hgeq
    have hij : i = j := by omega
    have hpid : s.playerId = t.playerId := by
      rw [← hgets, ← hgett]
      congr 1
      exact Fin.ext hij
    exact List.inj_on_of_nodup_map hids hs ht hpid
  · intro r hr1 hr2
    rw [hF, mem_assignedRanks_stateAfter]
    have hilt : ss₀.length - r < ps.length := by omega
    have hq : ps.get ⟨ss₀.length - r, hilt⟩ ∈ ps := ps.get_mem _ hilt
    obtain ⟨s, hs, hsq⟩ := List.mem_map.mp (hsub _ hq)
    refine ⟨s, hs, ?_⟩
    rw [expectedRank, hsq, idxOf_get_of_nodup ps hnd _ hilt, Option.map_some']
    congr 1
    rw [Nat.cast_inj]
    omega
  · rw [hF]
    have hB := nextFreeRank_stateAfter ss₀ ps ss₀.length hnd hsub (by omega)
    have hB0 : nextFreeRank (assignedRanks (stateAfter ss₀ ps ss₀.length))
        ss₀.length = 0 := by
      rw [hB]
      omega
    rw [handleElimination]
    simp only [hB0]
    rw [if_neg (by omega)]

/-- Witness for C4: two players, eliminated in the order `"b"`, `"a"`; a third
elimination is a no-op. -/
theorem handleElimination_descending_ranks_witness :
    ((∀ s ∈ [(⟨"a", 1, 0, 0, none⟩ : PlayerSession), ⟨"b", 1, 0, 0, none⟩],
        s.rank = none) ∧
      (["b", "a"] : List String).Nodup ∧ (["b", "a"] : List String).length = 2) ∧
    handleElimination 2 ((["b", "a"] : List String).foldl (handleElimination 2)
        [(⟨"a", 1, 0, 0, none⟩ : PlayerSession), ⟨"b", 1, 0, 0, none⟩]) "b" =
      (["b", "a"] : List String).foldl (handleElimination 2)
        [(⟨"a", 1, 0, 0, none⟩ : PlayerSession), ⟨"b", 1, 0, 0, none⟩] :=
  ⟨⟨by decide, by decide, by decide⟩,
    (handleElimination_descending_ranks
      [(⟨"a", 1, 0, 0, none⟩ : PlayerSession), ⟨"b", 1, 0, 0, none⟩]
      ["b", "a"] "b" (by decide) (by decide) (by decide) (by decide)
      (by decide)).2.2.2.2⟩

/-- The comparator `(a, b) => a.players.length - b.players.length` of
`pokerLogic.ts` line 58, as the total preorder it sorts by. -/
def lenLe (a b : Table) : Prop := a.players.length ≤ b.players.length

instance : DecidableRel lenLe :=
  fun a b => inferInstanceAs (Decidable (a.players.length ≤ b.players.length))

/-- The comparator `(a, b) => a.id - b.id` of line 63. -/
def idLe (a b : Table) : Prop := a.id ≤ b.id

instance : DecidableRel idLe := fun a b => inferInstanceAs (Decidable (a.id ≤ b.id))

/-- `tables.sort((a, b) => a.players.length - b.players.length)` (line 58).
JavaScript's sort is stable, and a stable sort's output is unique, so insertion
sort computes it. -/
def sortByLen (ts : List Table) : List Table := List.insertionSort lenLe ts

/-- `tables.sort((a, b) => a.id - b.id)` (line 63). -/
def sortById (ts : List Table) : List Table := List.insertionSort idLe ts

/-- Lines 56-60: one iteration of the non-dealer distribution loop: sort the
table array by current size (in place) and push the player's id onto the first
table of the sorted array. -/
def distributeStep (ts : List Table) (p : Player) : List Table :=
  match sortByLen ts with
  | [] => []
  | t :: rest => { t with players := t.players ++ [p.id] } :: rest

/-- Lines 39-42: `Array.from({length: k}, (_, i) => ({id: i + 1, players: []}))`. -/
def initialTables (k : ℕ) : List Table :=
  (List.range k).map (fun i => ⟨i + 1, []⟩)

/-- `tables[n].players.push(pid)`. -/
def pushAt : List Table → ℕ → String → List Table
  | [], _, _ => []
  | t :: ts, 0, pid => { t with players := t.players ++ [pid] } :: ts
  | t :: ts, n + 1, pid => t :: pushAt ts n pid

/-- Lines 46-49: round-robin distribution of the dealers,
`tables[index % safeNumTables].players.push(dealer.id)`. -/
def seatDealers (k : ℕ) : ℕ → List Table → List Player → List Table
  | _, ts, [] => ts
  | i, ts, d :: ds => seatDealers k (i + 1) (pushAt ts (i % k) d.id) ds

/-- `pokerLogic.ts` lines 30-64: `drawTables`.  The source shuffles the
non-dealers with Fisher-Yates before distributing them; `shuffled` stands for
that shuffled copy, so theorems quantify over all permutations of
`players.filter (!isDealer)`. -/
def drawTables (players : List Player) (numberOfTables : ℕ)
    (shuffled : List Player) : List Table :=
  if players.length = 0 then []
  else
    let safeNumTables := max 1 (min 3 numberOfTables)
    let tables := initialTables safeNumTables
    let tablesWithDealers :=
      seatDealers safeNumTables 0 tables (players.filter (fun p => p.isDealer))
    sortById (shuffled.foldl distributeStep tablesWithDealers)

lemma sortByLen_perm (ts : List Table) : (sortByLen ts).Perm ts :=
  List.perm_insertionSort lenLe ts

lemma sortByLen_sorted (ts : List Table) : List.Sorted lenLe (sortByLen ts) := by
  haveI : IsTotal Table lenLe := ⟨fun a b => Nat.le_total _ _⟩
  haveI : IsTrans Table lenLe := ⟨fun _ _ _ hab hbc => le_trans hab hbc⟩
  exact List.sorted_insertionSort lenLe ts

lemma distributeStep_spec (ts : List Table) (p : Player) (h : ts ≠ []) :
    ∃ t rest, sortByLen ts = t :: rest ∧
      distributeStep ts p = { t with players := t.players ++ [p.id] } :: rest ∧
      ∀ u ∈ ts, t.players.length ≤ u.players.length := by
  have hperm := sortByLen_perm ts
  have hne : sortByLen ts ≠ [] := by
    intro h0
    rw [h0] at hperm
    exact h (List.perm_nil.mp hperm.symm)
  obtain ⟨t, rest, heq⟩ := List.exists_cons_of_ne_nil hne
  refine ⟨t, rest, heq, ?_, ?_⟩
  · rw [distributeStep, heq]
  · intro u hu
    have hu2 : u ∈ sortByLen ts := hperm.mem_iff.mpr hu
    rw [heq] at hu2
    rcases List.mem_cons.mp hu2 with rfl | hu3
    · exact le_rfl
    · have hsorted := sortByLen_sorted ts
      rw [heq] at hsorted
      exact List.rel_of_sorted_cons hsorted u hu3

lemma distribute_foldl_spec (ps : List Player) :
    ∀ ts : List Table, ts ≠ [] →
      (∀ t ∈ ts, ∀ u ∈ ts, t.players.length ≤ u.players.length + 1) →
      ((ps.foldl distributeStep ts).length = ts.length ∧
        ((ps.foldl distributeStep ts).flatMap (fun t => t.players)).Perm
          (ps.map (fun p => p.id) ++ ts.flatMap (fun t => t.players)) ∧
        (∀ t ∈ ps.foldl distributeStep ts, ∀ u ∈ ps.foldl distributeStep ts,
          t.players.length ≤ u.players.length + 1)) := by
  induction ps with
  | nil =>
    intro ts _ hbal
    exact ⟨rfl, by simp, hbal⟩
  | cons p ps ih =>
    intro ts hne hbal
    obtain ⟨t, rest, hsort, hstep, hmin⟩ := distributeStep_spec ts p hne
    have hperm : (sortByLen ts).Perm ts := sortByLen_perm ts
    have hrest_mem : ∀ x ∈ rest, x ∈ ts := by
      intro x hx
      exact hperm.subset (hsort ▸ List.mem_cons_of_mem t hx)
    have htmem : t ∈ ts := hperm.subset (hsort ▸ List.mem_cons_self t rest)
    have hlen : (distributeStep ts p).length = ts.length := by
      rw [hstep]
      have hl := hperm.length_eq
      rw [hsort] at hl
      simpa using hl
    have hbal2 : ∀ a ∈ distributeStep ts p, ∀ b ∈ distributeStep ts p,
        a.players.length ≤ b.players.length + 1 := by
      rw [hstep]
      intro a ha b hb
      rcases List.mem_cons.mp ha with rfl | ha2 <;>
        rcases List.mem_cons.mp hb with rfl | hb2
      · omega
      · have := hmin b (hrest_mem b hb2)
        simp only [List.length_append, List.length_cons, List.length_nil]
        omega
      · have := hbal a (hrest_mem a ha2) t htmem
        simp only [List.length_append, List.length_cons, List.length_nil]
        omega
      · exact hbal a (hrest_mem a ha2) b (hrest_mem b hb2)
    have hjoin : ((distributeStep ts p).flatMap (fun u => u.players)).Perm
        (p.id :: ts.flatMap (fun u => u.players)) := by
      rw [hstep]
      have h1 : ((sortByLen ts).flatMap (fun u => u.players)).Perm
          (ts.flatMap (fun u => u.players)) := hperm.flatMap_right _
      rw [hsort] at h1
      have h1b : (t.players ++ rest.flatMap (fun u => u.players)).Perm
          (ts.flatMap (fun u => u.players)) := by
        simpa [List.flatMap_cons] using h1
      have e1 : (({ t with players := t.players ++ [p.id] } :: rest).flatMap
            (fun u => u.players))
          = t.players ++ (p.id :: rest.flatMap (fun u => u.players)) := by
        simp [List.flatMap_cons]
      rw [e1]
      exact List.Perm.trans List.perm_middle (h1b.cons p.id)
    rw [List.foldl_cons]
    obtain ⟨ihlen, ihperm, ihbal⟩ := ih (distributeStep ts p)
      (by rw [hstep]; exact List.cons_ne_nil _ _) hbal2
    refine ⟨by rw [ihlen, hlen], ?_, ihbal⟩
    have e2 : (p :: ps).map (fun q => q.id) ++ ts.flatMap (fun u => u.players)
        = p.id :: (ps.map (fun q => q.id) ++ ts.flatMap (fun u => u.players)) := by
      simp
    rw [e2]
    exact ihperm.trans ((hjoin.append_left _).trans List.perm_middle)

lemma initialTables_length (k : ℕ) : (initialTables k).length = k := by
  simp [initialTables]

lemma initialTables_players (k : ℕ) : ∀ t ∈ initialTables k, t.players = [] := by
  intro t ht
  rw [initialTables] at ht
  obtain ⟨i, -, rfl⟩ := List.mem_map.mp ht
  rfl

lemma initialTables_flatMap (k : ℕ) :
    (initialTables k).flatMap (fun t => t.players) = [] := by
  have h : ∀ l : List ℕ,
      ((l.map fun i => (⟨i + 1, []⟩ : Table)).flatMap fun t => t.players) = [] := by
    intro l
    induction l with
    | nil => rfl
    | cons a l ih => simp [ih]
  exact h (List.range k)

/-- C6 -- For every roster without priority-flagged (dealer) players, every
`tableCount` in `[1,3]`, and every permutation produced by the shuffle, the
tables returned by `drawTables` seat exactly the input players: the total
number of seats equals the number of input players, no player id occupies two
seats, and every table's size differs from every other table's size by at
most 1. -/
theorem drawTables_partition_balance
    (players shuffled : List Player) (numberOfTables : ℕ)
    (hnod : ∀ p ∈ players, p.isDealer = false)
    (hperm : shuffled.Perm (players.filter (fun p => !p.isDealer)))
    (hids : (players.map (fun p => p.id)).Nodup)
    (h1 : 1 ≤ numberOfTables) (h3 : numberOfTables ≤ 3) :
    (((drawTables players numberOfTables shuffled).map
        (fun t => t.players.length)).sum = players.length) ∧
    ((drawTables players numberOfTables shuffled).flatMap
        (fun t => t.players)).Nodup ∧
    (∀ t ∈ drawTables players numberOfTables shuffled,
      ∀ u ∈ drawTables players numberOfTables shuffled,
        t.players.length ≤ u.players.length + 1) := by
  by_cases hp : players.length = 0
  · rw [drawTables, if_pos hp]
    exact ⟨by simp [hp], by simp, by simp⟩
  · have hfd : players.filter (fun p => p.isDealer) = [] := by
      rw [List.filter_eq_nil_iff]
      intro a ha
      simp [hnod a ha]
    have hfn : players.filter (fun p => !p.isDealer) = players := by
      rw [List.filter_eq_self]
      intro a ha
      simp [hnod a ha]
    have hkey : drawTables players numberOfTables shuffled =
        sortById (shuffled.foldl distributeStep
          (initialTables (max 1 (min 3 numberOfTables)))) := by
      rw [drawTables, if_neg hp, hfd]
      rfl
    have hshuf : shuffled.Perm players := by
      rw [hfn] at hperm
      exact hperm
    have hinit_ne : initialTables (max 1 (min 3 numberOfTables)) ≠ [] := by
      intro h0
      have hl := congrArg List.length h0
      rw [initialTables_length] at hl
      have h2 : 1 ≤ max 1 (min 3 numberOfTables) := le_max_left _ _
      simp only [List.length_nil] at hl
      omega
    have hinit_bal : ∀ t ∈ initialTables (max 1 (min 3 numberOfTables)),
        ∀ u ∈ initialTables (max 1 (min 3 numberOfTables)),
          t.players.length ≤ u.players.length + 1 := by
      intro t ht u hu
      rw [initialTables_players _ t ht]
      simp
    obtain ⟨hflen, hfperm, hfbal⟩ :=
      distribute_foldl_spec shuffled (initialTables (max 1 (min 3 numberOfTables)))
        hinit_ne hinit_bal
    rw [initialTables_flatMap, List.append_nil] at hfperm
    have hsperm : (sortById (shuffled.foldl distributeStep
        (initialTables (max 1 (min 3 numberOfTables))))).Perm
        (shuffled.foldl distributeStep
          (initialTables (max 1 (min 3 numberOfTables)))) :=
      List.perm_insertionSort idLe _
    have hfinal : ((sortById (shuffled.foldl distributeStep
        (initialTables (max 1 (min 3 numberOfTables))))).flatMap
          (fun t => t.players)).Perm (players.map (fun p => p.id)) :=
      (hsperm.flatMap_right _).trans (hfperm.trans (hshuf.map _))
    rw [hkey]
    refine ⟨?_, hfinal.nodup_iff.mpr hids, ?_⟩
    · have hlen2 := hfinal.length_eq
      rw [List.length_map, List.length_flatMap] at hlen2
      exact hlen2
    · intro t ht u hu
      exact hfbal t (hsperm.subset ht) u (hsperm.subset hu)

/-- Witness for C6: three dealer-free players drawn onto two tables, shuffle
taken as the identity permutation. -/
theorem drawTables_partition_balance_witness :
    ((∀ p ∈ [(⟨"a", "a", false⟩ : Player), ⟨"b", "b", false⟩, ⟨"c", "c", false⟩],
        p.isDealer = false) ∧
      ([(⟨"a", "a", false⟩ : Player), ⟨"b", "b", false⟩, ⟨"c", "c", false⟩].Perm
        ([(⟨"a", "a", false⟩ : Player), ⟨"b", "b", false⟩,
          ⟨"c", "c", false⟩].filter (fun p => !p.isDealer)))) ∧
    ((((drawTables [(⟨"a", "a", false⟩ : Player), ⟨"b", "b", false⟩,
          ⟨"c", "c", false⟩] 2
        [(⟨"a", "a", false⟩ : Player), ⟨"b", "b", false⟩, ⟨"c", "c", false⟩]).map
        (fun t => t.players.length)).sum = 3) ∧
    ((drawTables [(⟨"a", "a", false⟩ : Player), ⟨"b", "b", false⟩,
          ⟨"c", "c", false⟩] 2
        [(⟨"a", "a", false⟩ : Player), ⟨"b", "b", false⟩, ⟨"c", "c", false⟩]).flatMap
        (fun t => t.players)).Nodup ∧
    (∀ t ∈ drawTables [(⟨"a", "a", false⟩ : Player), ⟨"b", "b", false⟩,
          ⟨"c", "c", false⟩] 2
        [(⟨"a", "a", false⟩ : Player), ⟨"b", "b", false⟩, ⟨"c", "c", false⟩],
      ∀ u ∈ drawTables [(⟨"a", "a", false⟩ : Player), ⟨"b", "b", false⟩,
          ⟨"c", "c", false⟩] 2
        [(⟨"a", "a", false⟩ : Player), ⟨"b", "b", false⟩, ⟨"c", "c", false⟩],
        t.players.length ≤ u.players.length + 1)) :=
  ⟨⟨by decide, by decide⟩,
    drawTables_partition_balance
      [(⟨"a", "a", false⟩ : Player), ⟨"b", "b", false⟩, ⟨"c", "c", false⟩]
      [(⟨"a", "a", false⟩ : Player), ⟨"b", "b", false⟩, ⟨"c", "c", false⟩]
      2 (by decide) (by decide) (by decide) (by decide) (by decide)⟩

/-- C7 counterexample -- with four non-dealer players on three tables and the
identity shuffle, after `"a"`, `"b"`, `"c"` are seated all three tables are
tied at one player; lowest-id tie-breaking would seat `"d"` at table 1, but
the stable re-sort leaves table 3 at the head of the working array, so `"d"`
is seated at table 3. -/
theorem drawTables_tiebreak_counterexample :
    drawTables
        [(⟨"a", "a", false⟩ : Player), ⟨"b", "b", false⟩,
          ⟨"c", "c", false⟩, ⟨"d", "d", false⟩] 3
        [(⟨"a", "a", false⟩ : Player), ⟨"b", "b", false⟩,
          ⟨"c", "c", false⟩, ⟨"d", "d", false⟩] =
      [⟨1, ["a"]⟩, ⟨2, ["b"]⟩, ⟨3, ["c", "d"]⟩] ∧
    (∀ t ∈ drawTables
        [(⟨"a", "a", false⟩ : Player), ⟨"b", "b", false⟩,
          ⟨"c", "c", false⟩, ⟨"d", "d", false⟩] 3
        [(⟨"a", "a", false⟩ : Player), ⟨"b", "b", false⟩,
          ⟨"c", "c", false⟩, ⟨"d", "d", false⟩],
      t.id = 1 → "d" ∉ t.players) ∧
    (∃ t ∈ drawTables
        [(⟨"a", "a", false⟩ : Player), ⟨"b", "b", false⟩,
          ⟨"c", "c", false⟩, ⟨"d", "d", false⟩] 3
        [(⟨"a", "a", false⟩ : Player), ⟨"b", "b", false⟩,
          ⟨"c", "c", false⟩, ⟨"d", "d", false⟩],
      t.id = 3 ∧ "d" ∈ t.players) := by
  exact ⟨by decide, by decide, by decide⟩

/-- C7 (amended) -- each shuffled non-priority player is appended to the head
table of the stable sort (by ascending player count) of the current table
array: that table has the fewest players at that moment, but when several
tables tie for fewest, the head is the tied table occurring first in the
array's current order (the order left by the previous stable sort), which need
not be the table with the lowest id. -/
theorem distributeStep_assigns_minimum (ts : List Table) (p : Player)
    (h : ts ≠ []) :
    ∃ t rest, sortByLen ts = t :: rest ∧
      distributeStep ts p = { t with players := t.players ++ [p.id] } :: rest ∧
      ∀ u ∈ ts, t.players.length ≤ u.players.length :=
  distributeStep_spec ts p h

/-- Witness for C7 (amended) at a single empty table. -/
theorem distributeStep_assigns_minimum_witness :
    ([(⟨1, ([] : List String)⟩ : Table)] ≠ []) ∧
    (∃ t rest, sortByLen [(⟨1, ([] : List String)⟩ : Table)] = t :: rest ∧
      distributeStep [(⟨1, ([] : List String)⟩ : Table)] ⟨"a", "a", false⟩ =
        { t with players := t.players ++ [(⟨"a", "a", false⟩ : Player).id] } :: rest ∧
      ∀ u ∈ [(⟨1, ([] : List String)⟩ : Table)],
        t.players.length ≤ u.players.length) :=
  ⟨by decide,
    distributeStep_assigns_minimum [⟨1, []⟩] ⟨"a", "a", false⟩ (by decide)⟩

/-- App line 21: `type GamePhase`. -/
inductive GamePhase where
  | REBUYS_OPEN
  | ADDONS_OPEN
  | FREEZEOUT
deriving DecidableEq

/-- The slice of the App component state that `startRound` reads and writes.
`checkedInIds` is a `Set<string>` in the source, modelled as a list of
distinct ids; its `size` is the list length. -/
structure AppState where
  players : List Player
  checkedInIds : List String
  numTables : ℕ
  gameSessions : List PlayerSession
  tables : List Table
  gamePhase : GamePhase
deriving DecidableEq

/-- App lines 73-93: `startRound`.  It filters the checked-in players, draws
tables, initializes one session per active player with `buyIns = 1`,
`rebuys = 0`, `addOns = 0`, `rank = null`, and sets the phase to
`REBUYS_OPEN`.  It performs no player-count check of its own.  `shuffled`
stands for the shuffle inside `drawTables`. -/
def startRound (st : AppState) (shuffled : List Player) : AppState :=
  let activePlayers := st.players.filter (fun p => p.id ∈ st.checkedInIds)
  { st with
    tables := drawTables activePlayers st.numTables shuffled
    gameSessions := activePlayers.map (fun p =>
      { playerId := p.id, buyIns := 1, rebuys := 0, addOns := 0, rank := none })
    gamePhase := GamePhase.REBUYS_OPEN }

/-- App line 392: the start control is rendered with
`disabled={checkedInIds.size < 2}`. -/
def startButtonDisabled (st : AppState) : Bool :=
  decide (st.checkedInIds.length < 2)

/-- Pressing the start control: a disabled button does nothing; otherwise the
`startRound` handler runs. -/
def clickStart (st : AppState) (shuffled : List Player) : AppState :=
  if startButtonDisabled st then st else startRound st shuffled

/-- C9 counterexample -- invoking the `startRound` handler itself with a
single checked-in player raises no `InsufficientPlayers` failure (the function
is total and has no failure channel) and does create state: it initializes a
player session, generates a seating plan, and sets the phase. -/
theorem startRound_insufficient_counterexample :
    ((⟨[⟨"a", "Alice", false⟩], ["a"], 1, [], [], GamePhase.FREEZEOUT⟩ :
        AppState).checkedInIds.length < 2) ∧
    (startRound
        (⟨[⟨"a", "Alice", false⟩], ["a"], 1, [], [], GamePhase.FREEZEOUT⟩ :
          AppState) [⟨"a", "Alice", false⟩]).gameSessions =
      [⟨"a", 1, 0, 0, none⟩] ∧
    (startRound
        (⟨[⟨"a", "Alice", false⟩], ["a"], 1, [], [], GamePhase.FREEZEOUT⟩ :
          AppState) [⟨"a", "Alice", false⟩]).tables = [⟨1, ["a"]⟩] ∧
    (startRound
        (⟨[⟨"a", "Alice", false⟩], ["a"], 1, [], [], GamePhase.FREEZEOUT⟩ :
          AppState) [⟨"a", "Alice", false⟩]).gamePhase = GamePhase.REBUYS_OPEN := by
  exact ⟨by decide, by decide, by decide, by decide⟩

/-- C9 (amended) -- starting a round with fewer than 2 checked-in players is
prevented by the caller-side guard: the start control is disabled whenever
`checkedInIds.size < 2`, so pressing it leaves the entire state unchanged (no
seating plan, no sessions, no phase change).  No distinct
`InsufficientPlayers` failure value is produced anywhere, and the underlying
`startRound` function performs no player-count check of its own. -/
theorem clickStart_insufficient_is_noop (st : AppState) (shuffled : List Player)
    (h : st.checkedInIds.length < 2) : clickStart st shuffled = st := by
  rw [clickStart, if_pos]
  rw [startButtonDisabled]
  exact decide_eq_true h

/-- Witness for C9 (amended) at a one-player state. -/
theorem clickStart_insufficient_is_noop_witness :
    ((⟨[⟨"a", "Alice", false⟩], ["a"], 1, [], [], GamePhase.REBUYS_OPEN⟩ :
        AppState).checkedInIds.length < 2) ∧
    clickStart
        (⟨[⟨"a", "Alice", false⟩], ["a"], 1, [], [], GamePhase.REBUYS_OPEN⟩ :
          AppState) [⟨"a", "Alice", false⟩] =
      (⟨[⟨"a", "Alice", false⟩], ["a"], 1, [], [], GamePhase.REBUYS_OPEN⟩ :
        AppState) :=
  ⟨by decide,
    clickStart_insufficient_is_noop
      (⟨[⟨"a", "Alice", false⟩], ["a"], 1, [], [], GamePhase.REBUYS_OPEN⟩ :
        AppState) [⟨"a", "Alice", false⟩] (by decide)⟩
